import Mathlib

/-!
Shallow embedding of the multi-process workflow dispatcher
(src/erysa/structs/multi_process_workflow.py).

Workers (agents) are modelled as named functions from a task and extra
arguments to `Except Err ρ`: an `Except.error` models the Python run call
raising, an `Except.ok` models a returned result. Python exceptions inside a
method body are modelled by an `Except Err` computation (the `...Exc`
definitions); the enclosing try/except that logs and returns None is the
`Except.toOption` wrapper. The Python value None returned by `execute_task`
on failure (the FailureMarker) is `Option.none` of the element type; the
Python None returned by a dispatch method on dispatch-level failure is
`Option.none` of the sequence type.

Nondeterministic completion order of `as_completed` in the thread-pool
dispatchers is modelled by an explicit `completion : List Nat` parameter
listing the indices of the submitted futures in the order they complete; a
feasible schedule is a permutation of `List.range` over the number of jobs,
which the order-sensitive theorems take as a hypothesis.
-/

namespace Erysa

/-- Tasks are opaque text, as the source treats them for logging. -/
abbrev Task := String

/-- Python exception values, abstracted to their message text. -/
abbrev Err := String

/-- Extra positional arguments forwarded to a worker run call. -/
abbrev Args := List String

/-- A worker agent: a display name and a run capability that may fail. -/
structure Agent (ρ : Type) where
  agent_name : String
  run : Task → Args → Except Err ρ

/-- The task object consumed by `run`, which reads `task.timeout`; `none`
models a task object with no timeout attribute (accessing it raises). -/
structure RunTask where
  text : Task
  timeout : Option Int

/-- The `max_workers` attribute stored by `MultiProcessWorkflow.__init__`.
The source line `self.max_workers or cpu_count()` computes a default but
discards the value without assigning it, so the stored attribute is always
the argument as given. -/
def init_max_workers (cpu_count : Int) (max_workers : Int) : Int :=
  let _discarded : Int := if max_workers = 0 then cpu_count else max_workers
  max_workers

variable {ρ : Type}

/-- The `for agent in self.agents` loop inside `execute_task`: runs the task
against each agent in order, rebinding the local variable `result` each
iteration (`Option ρ`, with `none` meaning still unbound). Returns the list
of agent names whose run was invoked, and either the final binding of
`result` or the first raised error. -/
def runAgentsLoop (task : Task) (extra : Args) :
    List (Agent ρ) → Option ρ → List String × Except Err (Option ρ)
  | [], res => ([], Except.ok res)
  | a :: rest, _res =>
    match a.run task extra with
    | Except.ok r =>
      let out := runAgentsLoop task extra rest (some r)
      (a.agent_name :: out.1, out.2)
    | Except.error e => ([a.agent_name], Except.error e)

/-- The agents whose run capability a single `execute_task` call invokes. -/
def invoked_agents (agents : List (Agent ρ)) (task : Task) (extra : Args) :
    List String :=
  (runAgentsLoop task extra agents none).1

/-- Body of `execute_task` before its try/except: if the agent list is
present, loop over it; then `return result`, which raises UnboundLocalError
when no loop iteration bound `result` (agents absent or empty). -/
def execute_taskExc (agents : Option (List (Agent ρ))) (task : Task)
    (extra : Args) : Except Err ρ :=
  let afterLoop : Except Err (Option ρ) :=
    match agents with
    | some ags => (runAgentsLoop task extra ags none).2
    | none => Except.ok none
  match afterLoop with
  | Except.ok (some r) => Except.ok r
  | Except.ok none =>
      Except.error "UnboundLocalError: local variable result referenced before assignment"
  | Except.error e => Except.error e

/-- `execute_task`: the body wrapped in try/except Exception, which logs and
returns None. `none` is the FailureMarker occupying a result slot. -/
def execute_task (agents : Option (List (Agent ρ))) (task : Task)
    (extra : Args) : Option ρ :=
  (execute_taskExc agents task extra).toOption

/-- Body of `run` before its try/except. `Pool(processes=max_workers)`
rejects a non-positive process count; the job list comprehension iterates
`self.agents` (raising if it is None), and its first evaluation of
`pool.apply_async` first reads `task.timeout` (raising AttributeError when
the attribute is absent) and then rejects the unsupported `timeout` keyword
argument with a TypeError. With an empty agent list no job is created and
the shared results list is returned empty. -/
def runExc (max_workers : Int) (agents : Option (List (Agent ρ)))
    (task : RunTask) : Except Err (List (Option ρ)) :=
  if max_workers < 1 then
    Except.error "ValueError: Number of processes must be at least 1"
  else
    match agents with
    | none => Except.error "TypeError: NoneType object is not iterable"
    | some [] => Except.ok []
    | some (_ :: _) =>
      match task.timeout with
      | none => Except.error "AttributeError: task object has no attribute timeout"
      | some _ =>
          Except.error "TypeError: apply_async got an unexpected keyword argument timeout"

/-- `run`: the body wrapped in try/except Exception, which logs and returns
None on any raised error. -/
def run (max_workers : Int) (agents : Option (List (Agent ρ)))
    (task : RunTask) : Option (List (Option ρ)) :=
  (runExc max_workers agents task).toOption

/-- Body of `async_run` before its try/except. `ThreadPoolExecutor` rejects
a non-positive `max_workers`; `range(len(self.agents))` raises when the
agent list is None; one future per agent is submitted, each computing
`execute_task` on the same task; `as_completed` yields the futures in the
completion order given by `completion`. -/
def async_runExc (max_workers : Int) (agents : Option (List (Agent ρ)))
    (task : Task) (extra : Args) (completion : List Nat) :
    Except Err (List (Option ρ)) :=
  if max_workers ≤ 0 then
    Except.error "ValueError: max_workers must be greater than 0"
  else
    match agents with
    | none => Except.error "TypeError: object of type NoneType has no len"
    | some ags =>
      let jobs : List (Option ρ) :=
        List.replicate ags.length (execute_task (some ags) task extra)
      Except.ok (completion.filterMap (fun i => jobs[i]?))

/-- `async_run`: the body wrapped in try/except Exception returning None on
any raised error. -/
def async_run (max_workers : Int) (agents : Option (List (Agent ρ)))
    (task : Task) (extra : Args) (completion : List Nat) :
    Option (List (Option ρ)) :=
  (async_runExc max_workers agents task extra completion).toOption

/-- Body of `concurrent_run` before its try/except: one future per task
(the agent list is only consulted inside `execute_task`), collected in
completion order. -/
def concurrent_runExc (max_workers : Int) (agents : Option (List (Agent ρ)))
    (tasks : List Task) (extra : Args) (completion : List Nat) :
    Except Err (List (Option ρ)) :=
  if max_workers ≤ 0 then
    Except.error "ValueError: max_workers must be greater than 0"
  else
    let jobs : List (Option ρ) := tasks.map (fun t => execute_task agents t extra)
    Except.ok (completion.filterMap (fun i => jobs[i]?))

/-- `concurrent_run`: the body wrapped in try/except Exception returning
None on any raised error. -/
def concurrent_run (max_workers : Int) (agents : Option (List (Agent ρ)))
    (tasks : List Task) (extra : Args) (completion : List Nat) :
    Option (List (Option ρ)) :=
  (concurrent_runExc max_workers agents tasks extra completion).toOption

/-- Body of `batched_run` before its try/except.
`range(0, len(tasks), batch_size)` raises when the step is zero and is
empty when the step is negative; otherwise the start indices are
`0, k, 2k, ...` below `len(tasks)`, which Python documents as
`i * k` for `i` below the ceiling of `len(tasks) / k`. Each iteration
slices `tasks[i : i + batch_size]`, builds a pool (rejecting a non-positive
process count), and extends the results with an order-preserving map of
`execute_task` over the batch; the extra arguments of `batched_run` are
consumed by `pool.map` itself, so `execute_task` receives none of them. -/
def batched_runExc (max_workers : Int) (agents : Option (List (Agent ρ)))
    (tasks : List Task) (batch_size : Int) : Except Err (List (Option ρ)) :=
  if batch_size = 0 then
    Except.error "ValueError: range arg 3 must not be zero"
  else
    let k : Nat := batch_size.toNat
    let starts : List Nat :=
      if batch_size < 0 then []
      else (List.range ((tasks.length + k - 1) / k)).map (fun i => i * k)
    starts.foldlM
      (fun acc i =>
        if max_workers < 1 then
          Except.error "ValueError: Number of processes must be at least 1"
        else
          Except.ok (acc ++ ((tasks.drop i).take k).map
            (fun t => execute_task agents t [])))
      []

/-- `batched_run`: the body wrapped in try/except Exception returning None
on any raised error. -/
def batched_run (max_workers : Int) (agents : Option (List (Agent ρ)))
    (tasks : List Task) (batch_size : Int) : Option (List (Option ρ)) :=
  (batched_runExc max_workers agents tasks batch_size).toOption

/-- A worker whose run call always raises. -/
def failAgent : Agent String :=
  { agent_name := "A", run := fun _ _ => Except.error "boom" }

/-- A worker whose run call always returns the fixed result pong. -/
def pongAgent : Agent String :=
  { agent_name := "B", run := fun _ _ => Except.ok "pong" }

/-- A worker whose run call echoes the task text back as its result. -/
def echoAgent : Agent String :=
  { agent_name := "E", run := fun t _ => Except.ok t }

/-! Helper lemmas about completion-order collection and batch partitioning. -/

/-- Collecting every index of a list in submission order recovers the list. -/
theorem filterMap_getElem_range {β : Type} (l : List β) :
    (List.range l.length).filterMap (fun i => l[i]?) = l := by
  induction l with
  | nil => rfl
  | cons a t ih =>
    have hcomp : ((fun i => (a :: t)[i]?) ∘ Nat.succ) = (fun i => t[i]?) := by
      funext i
      simp
    rw [List.length_cons, List.range_succ_eq_map]
    simp only [List.filterMap_cons, List.getElem?_cons_zero, List.filterMap_map]
    rw [hcomp, ih]

/-- Collecting the jobs of a list in any completion order that is a
permutation of the submission indices yields a permutation of the list. -/
theorem filterMap_getElem_perm {β : Type} {completion : List Nat} (l : List β)
    (hc : completion.Perm (List.range l.length)) :
    (completion.filterMap (fun i => l[i]?)).Perm l := by
  have h := hc.filterMap (fun i => l[i]?)
  rwa [filterMap_getElem_range] at h

/-- Collecting identical jobs in any feasible completion order yields the
same replicated list. -/
theorem filterMap_getElem_replicate {β : Type} {completion : List Nat}
    (n : Nat) (r : β) (hc : completion.Perm (List.range n)) :
    completion.filterMap (fun i => (List.replicate n r)[i]?) =
      List.replicate n r := by
  have hp : (completion.filterMap
      (fun i => (List.replicate n r)[i]?)).Perm (List.replicate n r) :=
    filterMap_getElem_perm (List.replicate n r)
      (by simpa [List.length_replicate] using hc)
  rw [List.eq_replicate_iff]
  refine ⟨by simpa [List.length_replicate] using hp.length_eq, ?_⟩
  intro b hb
  exact List.eq_of_mem_replicate (hp.mem_iff.mp hb)

/-- Ceiling-division peels off one batch at the front of a non-empty list:
with m elements left and batch size k, the batch count is one more than the
count for the remaining m - k elements. -/
theorem ceil_batches_succ (k m : Nat) (hk : 1 ≤ k) (hm : 1 ≤ m) :
    (m + k - 1) / k = (m - k + k - 1) / k + 1 := by
  have h1 : m + k - 1 = (m - 1) + k := by omega
  rw [h1, Nat.add_div_right _ (by omega : 0 < k)]
  by_cases hmk : k < m
  · have h2 : m - k + k - 1 = m - 1 := by omega
    rw [h2]
  · have h2 : m - k + k - 1 = k - 1 := by omega
    rw [h2, Nat.div_eq_of_lt (by omega), Nat.div_eq_of_lt (by omega)]

/-- The consecutive slices of width k starting at 0, k, 2k, ... tile the
whole list: their concatenation is the list itself. -/
theorem chunks_cover {β : Type} (k : Nat) (hk : 1 ≤ k) :
    ∀ (fuel : Nat) (l : List β), l.length ≤ fuel →
      ((List.range ((l.length + k - 1) / k)).map
        (fun i => (l.drop (i * k)).take k)).flatten = l := by
  intro fuel
  induction fuel with
  | zero =>
    intro l hl
    have : l = [] := List.length_eq_zero.mp (Nat.le_zero.mp hl)
    subst this
    simp
  | succ n ih =>
    intro l hl
    match l with
    | [] => simp
    | a :: t =>
      have hm : 1 ≤ (a :: t).length := by simp
      have hlen : ((a :: t).drop k).length = (a :: t).length - k := by
        simp [List.length_drop]
      have hceil : ((a :: t).length + k - 1) / k =
          (((a :: t).drop k).length + k - 1) / k + 1 := by
        rw [hlen]
        exact ceil_batches_succ k (a :: t).length hk hm
      rw [hceil, List.range_succ_eq_map, List.map_cons, List.map_map]
      have hzero : ((a :: t).drop (0 * k)).take k = (a :: t).take k := by
        simp
      have hsucc : ((fun i => ((a :: t).drop (i * k)).take k) ∘ Nat.succ) =
          (fun i => (((a :: t).drop k).drop (i * k)).take k) := by
        funext i
        simp only [Function.comp_apply, List.drop_drop]
        have : k + i * k = Nat.succ i * k := by
          rw [Nat.succ_mul, Nat.add_comm]
        rw [this]
      rw [hzero, hsucc, List.flatten_cons]
      have hfuel : ((a :: t).drop k).length ≤ n := by
        rw [hlen]
        have : 1 ≤ k := hk
        omega
      rw [ih ((a :: t).drop k) hfuel, List.take_append_drop]

/-- A try/except wrapper returns None exactly when the body raised. -/
theorem except_toOption_eq_none {α : Type} (e : Except Err α) :
    e.toOption = none ↔ ∃ err, e = Except.error err := by
  cases e with
  | error err => simp [Except.toOption]
  | ok a => simp [Except.toOption]

/-- A try/except wrapper returns a value exactly when the body produced it. -/
theorem except_toOption_eq_some {α : Type} (e : Except Err α) (a : α) :
    e.toOption = some a ↔ e = Except.ok a := by
  cases e with
  | error err => simp [Except.toOption]
  | ok b => simp [Except.toOption]

/-- A result-extending fold whose every step succeeds collects the
concatenation of the per-step output lists, in step order. -/
theorem foldlM_ok_extend {β : Type} (g : Nat → List β) :
    ∀ (starts : List Nat) (acc : List β),
      List.foldlM
          (fun acc i => (Except.ok (acc ++ g i) : Except Err (List β))) acc starts
        = Except.ok (acc ++ (starts.map g).flatten) := by
  intro starts
  induction starts with
  | nil =>
    intro acc
    simp only [List.map_nil, List.flatten_nil, List.append_nil, List.foldlM_nil]
    rfl
  | cons s t ih =>
    intro acc
    rw [List.foldlM_cons]
    show (Except.ok (acc ++ g s) >>= fun init =>
      List.foldlM (fun acc i => (Except.ok (acc ++ g i) : Except Err (List β)))
        init t) = _
    rw [show ((Except.ok (acc ++ g s) >>= fun init =>
        List.foldlM
          (fun acc i => (Except.ok (acc ++ g i) : Except Err (List β)))
          init t) =
        List.foldlM
          (fun acc i => (Except.ok (acc ++ g i) : Except Err (List β)))
          (acc ++ g s) t) from rfl]
    rw [ih (acc ++ g s)]
    simp [List.append_assoc]

/-- Unfolding equation for the agent loop at a succeeding head agent. -/
theorem runAgentsLoop_cons_ok (task : Task) (extra : Args) (a : Agent ρ)
    (rest : List (Agent ρ)) (res : Option ρ) (r : ρ)
    (h : a.run task extra = Except.ok r) :
    runAgentsLoop task extra (a :: rest) res =
      (a.agent_name :: (runAgentsLoop task extra rest (some r)).1,
       (runAgentsLoop task extra rest (some r)).2) := by
  simp [runAgentsLoop, h]

/-- If some agent in the list fails on the task, the agent loop raises the
first such failure, whatever the current binding of the result variable. -/
theorem runAgentsLoop_error_of_mem_fail (task : Task) (extra : Args) :
    ∀ (ags : List (Agent ρ)) (res : Option ρ),
      (∃ a ∈ ags, ∃ e, a.run task extra = Except.error e) →
      ∃ e, (runAgentsLoop task extra ags res).2 = Except.error e := by
  intro ags
  induction ags with
  | nil =>
    intro res h
    simp at h
  | cons a t ih =>
    intro res h
    obtain ⟨b, hb, e, he⟩ := h
    cases harun : a.run task extra with
    | error e2 =>
      exact ⟨e2, by simp [runAgentsLoop, harun]⟩
    | ok r =>
      have hbt : b ∈ t := by
        rcases List.mem_cons.mp hb with hba | hbt
        · subst hba
          rw [harun] at he
          cases he
        · exact hbt
      obtain ⟨e3, he3⟩ := ih (some r) ⟨b, hbt, e, he⟩
      exact ⟨e3, by simp [runAgentsLoop, harun, he3]⟩

/-- If every agent in a non-empty list succeeds on the task, the agent loop
invokes all of them in order and ends with the result variable bound to the
last agents result. -/
theorem runAgentsLoop_all_ok (task : Task) (extra : Args) :
    ∀ (ags : List (Agent ρ)), ags ≠ [] →
      (∀ a ∈ ags, ∃ r, a.run task extra = Except.ok r) →
      ∀ res, ∃ last rr, ags.getLast? = some last ∧
        last.run task extra = Except.ok rr ∧
        runAgentsLoop task extra ags res =
          (ags.map (fun a => a.agent_name), Except.ok (some rr)) := by
  intro ags
  induction ags with
  | nil =>
    intro hne _ _
    exact absurd rfl hne
  | cons a t ih =>
    intro _ hok res
    obtain ⟨r, hr⟩ := hok a (List.mem_cons_self a t)
    cases t with
    | nil =>
      exact ⟨a, r, rfl, hr, by simp [runAgentsLoop, hr]⟩
    | cons b t2 =>
      have hok2 : ∀ c ∈ b :: t2, ∃ r2, c.run task extra = Except.ok r2 := by
        intro c hc
        exact hok c (List.mem_cons_of_mem a hc)
      obtain ⟨last, rr, hlast, hlastrun, hloop⟩ :=
        ih (by simp) hok2 (some r)
      refine ⟨last, rr, ?_, hlastrun, ?_⟩
      · rw [List.getLast?_cons_cons]
        exact hlast
      · rw [runAgentsLoop_cons_ok task extra a (b :: t2) res r hr, hloop]
        simp

/-! Claim theorems. -/

/-- Claim C1 (code bug witnessed): for every non-empty worker set, `run`
returns None rather than a sequence: the job comprehension reads
`task.timeout` (raising AttributeError when the task carries no timeout)
and then passes the unsupported `timeout` keyword to `pool.apply_async`
(raising TypeError when it does), so the outer handler always fires. The
claim that `run` returns a sequence of at most N entries with FailureMarker
entries for failing workers never holds for N greater than zero. -/
theorem run_nonempty_worker_set_returns_none (max_workers : Int) (a : Agent ρ)
    (rest : List (Agent ρ)) (task : RunTask) :
    run max_workers (some (a :: rest)) task = none := by
  obtain ⟨text, timeout⟩ := task
  unfold run runExc
  by_cases h : max_workers < 1
  · rw [if_pos h]
    rfl
  · rw [if_neg h]
    cases timeout <;> rfl

/-- Claim C2: a worker failure inside `execute_task` is caught by its
try/except and converted to the FailureMarker None; no exception escapes
the call (its result type is already the wrapped Option). If any agent of
the worker set fails on the task, the call returns None. -/
theorem execute_task_worker_failure_yields_marker (ags : List (Agent ρ))
    (task : Task) (extra : Args)
    (hfail : ∃ a ∈ ags, ∃ e, a.run task extra = Except.error e) :
    execute_task (some ags) task extra = none := by
  obtain ⟨e, he⟩ := runAgentsLoop_error_of_mem_fail task extra ags none hfail
  simp only [execute_task, execute_taskExc, he]
  rfl

/-- Claim C3: with a positive batch size and a positive process count,
`batched_run` processes the ceiling of M divided by k consecutive batches
`tasks[i*k : (i+1)*k]` in list order and returns the concatenation of the
order-preserving maps of `execute_task` over the batches, which equals the
order-preserving map over the whole task list. -/
theorem batched_run_partitions_tasks (max_workers : Int)
    (ags : Option (List (Agent ρ))) (tasks : List Task) (k : Nat)
    (hk : 1 ≤ k) (hmw : 1 ≤ max_workers) :
    batched_run max_workers ags tasks (k : Int) =
      some (((List.range ((tasks.length + k - 1) / k)).map
        (fun i => ((tasks.drop (i * k)).take k).map
          (fun t => execute_task ags t []))).flatten) ∧
    batched_run max_workers ags tasks (k : Int) =
      some (tasks.map (fun t => execute_task ags t [])) := by
  have hk0 : ¬ ((k : Int) = 0) := by
    simp only [Int.natCast_eq_zero]
    omega
  have hkneg : ¬ ((k : Int) < 0) := not_lt.mpr (Int.natCast_nonneg k)
  have hmwneg : ¬ (max_workers < 1) := by omega
  have hstep : (fun (acc : List (Option ρ)) (i : Nat) =>
      if max_workers < 1 then
        (Except.error "ValueError: Number of processes must be at least 1" :
          Except Err (List (Option ρ)))
      else
        Except.ok (acc ++ ((tasks.drop i).take k).map
          (fun t => execute_task ags t []))) =
      (fun acc i => Except.ok (acc ++ ((tasks.drop i).take k).map
        (fun t => execute_task ags t []))) := by
    funext acc i
    rw [if_neg hmwneg]
  have hbody : batched_runExc max_workers ags tasks (k : Int) =
      Except.ok (((List.range ((tasks.length + k - 1) / k)).map
        (fun i => ((tasks.drop (i * k)).take k).map
          (fun t => execute_task ags t []))).flatten) := by
    simp only [batched_runExc, if_neg hk0, if_neg hkneg, Int.toNat_natCast]
    rw [hstep, foldlM_ok_extend]
    rw [List.map_map]
    rfl
  have hcover : ((List.range ((tasks.length + k - 1) / k)).map
      (fun i => ((tasks.drop (i * k)).take k).map
        (fun t => execute_task ags t []))).flatten =
      tasks.map (fun t => execute_task ags t []) := by
    have h1 : (fun i => ((tasks.drop (i * k)).take k).map
        (fun t => execute_task ags t [])) =
        (List.map (fun t => execute_task ags t [])) ∘
          (fun i => (tasks.drop (i * k)).take k) := rfl
    rw [h1, ← List.map_map, ← List.map_flatten,
      chunks_cover k hk tasks.length tasks le_rfl]
  constructor
  · show (batched_runExc max_workers ags tasks (k : Int)).toOption = _
    rw [hbody]
    rfl
  · show (batched_runExc max_workers ags tasks (k : Int)).toOption = _
    rw [hbody]
    simp only [Except.toOption]
    rw [hcover]

/-- Claim C4: with a positive thread count, `concurrent_run` submits one
job per task and, for every feasible completion order, returns exactly M
entries, a permutation of the per-task `execute_task` outcomes (successes
and FailureMarkers combined). -/
theorem concurrent_run_one_entry_per_task (max_workers : Int)
    (ags : Option (List (Agent ρ))) (tasks : List Task) (extra : Args)
    (completion : List Nat) (hmw : 1 ≤ max_workers)
    (hc : completion.Perm (List.range tasks.length)) :
    ∃ l, concurrent_run max_workers ags tasks extra completion = some l ∧
      l.length = tasks.length ∧
      l.Perm (tasks.map (fun t => execute_task ags t extra)) := by
  have hnot : ¬ (max_workers ≤ 0) := by omega
  have hc2 : completion.Perm
      (List.range (tasks.map (fun t => execute_task ags t extra)).length) := by
    simpa using hc
  have hperm := filterMap_getElem_perm
    (tasks.map (fun t => execute_task ags t extra)) hc2
  refine ⟨completion.filterMap
      (fun i => (tasks.map (fun t => execute_task ags t extra))[i]?), ?_, ?_, hperm⟩
  · simp only [concurrent_run, concurrent_runExc, if_neg hnot]
    rfl
  · simpa using hperm.length_eq

/-- Claim C5: each dispatch call is the Option-valued catch of its
exception-throwing body: it returns None exactly when the body raised a
dispatch-level error and returns each sequence exactly when the body
produced it, and the None outcome is distinct from the empty sequence. -/
theorem dispatch_none_vs_empty (max_workers bs : Int)
    (ags : Option (List (Agent ρ))) (rtask : RunTask) (task : Task)
    (tasks : List Task) (extra : Args) (c₁ c₂ : List Nat) :
    ((run max_workers ags rtask = none ↔
        ∃ e, runExc max_workers ags rtask = Except.error e) ∧
      ∀ l, run max_workers ags rtask = some l ↔
        runExc max_workers ags rtask = Except.ok l) ∧
    ((async_run max_workers ags task extra c₁ = none ↔
        ∃ e, async_runExc max_workers ags task extra c₁ = Except.error e) ∧
      ∀ l, async_run max_workers ags task extra c₁ = some l ↔
        async_runExc max_workers ags task extra c₁ = Except.ok l) ∧
    ((batched_run max_workers ags tasks bs = none ↔
        ∃ e, batched_runExc max_workers ags tasks bs = Except.error e) ∧
      ∀ l, batched_run max_workers ags tasks bs = some l ↔
        batched_runExc max_workers ags tasks bs = Except.ok l) ∧
    ((concurrent_run max_workers ags tasks extra c₂ = none ↔
        ∃ e, concurrent_runExc max_workers ags tasks extra c₂ = Except.error e) ∧
      ∀ l, concurrent_run max_workers ags tasks extra c₂ = some l ↔
        concurrent_runExc max_workers ags tasks extra c₂ = Except.ok l) ∧
    (none : Option (List (Option ρ))) ≠ some [] :=
  ⟨⟨except_toOption_eq_none _, fun l => except_toOption_eq_some _ l⟩,
   ⟨except_toOption_eq_none _, fun l => except_toOption_eq_some _ l⟩,
   ⟨except_toOption_eq_none _, fun l => except_toOption_eq_some _ l⟩,
   ⟨except_toOption_eq_none _, fun l => except_toOption_eq_some _ l⟩,
   by simp⟩

/-- Claim C6 (code bug witnessed): the constructor line
`self.max_workers or cpu_count()` discards its value, so constructing the
workflow with max_workers equal to zero stores zero and the claimed
invariant that the concurrency limit is at least one fails. -/
theorem init_max_workers_zero_stays_zero (cpu_count : Int) :
    init_max_workers cpu_count 0 = 0 ∧
      ¬ (1 ≤ init_max_workers cpu_count 0) :=
  ⟨rfl, by simp [init_max_workers]⟩

/-- Claim C7 corrected, counterexample: a dispatch call made with an empty
worker set need not return an empty sequence: `batched_run` on one task
with zero workers returns a one-entry sequence holding a FailureMarker. -/
theorem batched_run_empty_worker_set_not_empty :
    batched_run 5 (some ([] : List (Agent String))) ["t1"] 5 =
      some [none] ∧
    batched_run 5 (some ([] : List (Agent String))) ["t1"] 5 ≠
      some ([] : List (Option String)) := by
  constructor
  · rfl
  · decide

/-- Claim C7 as amended: the per-worker dispatch calls `run` and
`async_run`, invoked with an empty worker set and a positive concurrency
limit, return an empty sequence rather than None; the per-task calls
return one FailureMarker slot per task instead. -/
theorem run_async_run_empty_worker_set_empty_seq (max_workers : Int)
    (rtask : RunTask) (task : Task) (extra : Args) (completion : List Nat)
    (hmw : 1 ≤ max_workers) :
    run max_workers (some ([] : List (Agent ρ))) rtask = some [] ∧
    async_run max_workers (some ([] : List (Agent ρ))) task extra completion =
      some [] := by
  have h0 : ¬ (max_workers < 1) := by omega
  have h1 : ¬ (max_workers ≤ 0) := by omega
  constructor
  · simp only [run, runExc, if_neg h0]
    rfl
  · simp only [async_run, async_runExc, if_neg h1, List.length_nil,
      List.replicate_zero]
    simp [Except.toOption]

/-- Claim C8 corrected, counterexample: with worker set [failing, pong],
the single `execute_task` call does not run the task against every worker
and does not return the last workers result: only the first worker is
invoked and the call returns the FailureMarker, while the last workers
result would have been pong. -/
theorem execute_task_not_last_result_on_failure :
    invoked_agents [failAgent, pongAgent] "ping" [] = ["A"] ∧
    execute_task (some [failAgent, pongAgent]) "ping" [] = none ∧
    (pongAgent.run "ping" []).toOption = some "pong" :=
  ⟨rfl, rfl, rfl⟩

/-- Claim C8 as amended: whenever every worker in a non-empty set succeeds
on the task, a single `execute_task` call invokes every worker in order and
returns only the last workers result, discarding the earlier ones; each
job dispatched by the outer per-worker loop therefore re-executes the
entire worker set. -/
theorem execute_task_visits_all_keeps_last (ags : List (Agent ρ))
    (task : Task) (extra : Args) (hne : ags ≠ [])
    (hok : ∀ a ∈ ags, ∃ r, a.run task extra = Except.ok r) :
    ∃ last, ags.getLast? = some last ∧
      invoked_agents ags task extra = ags.map (fun a => a.agent_name) ∧
      execute_task (some ags) task extra = (last.run task extra).toOption := by
  obtain ⟨last, rr, hlast, hrun, hloop⟩ :=
    runAgentsLoop_all_ok task extra ags hne hok none
  refine ⟨last, hlast, ?_, ?_⟩
  · simp [invoked_agents, hloop]
  · simp [execute_task, execute_taskExc, hloop, hrun, Except.toOption]

/-- Claim C9: two `async_run` calls over the same stateless worker set and
task, under any two feasible completion orders, return sequences of equal
length and equal multiset of values. -/
theorem async_run_rerun_same_multiset (max_workers : Int)
    (ags : List (Agent ρ)) (task : Task) (extra : Args) (c₁ c₂ : List Nat)
    (hmw : 1 ≤ max_workers) (h₁ : c₁.Perm (List.range ags.length))
    (h₂ : c₂.Perm (List.range ags.length)) :
    ∃ l₁ l₂, async_run max_workers (some ags) task extra c₁ = some l₁ ∧
      async_run max_workers (some ags) task extra c₂ = some l₂ ∧
      l₁.length = l₂.length ∧
      (l₁ : Multiset (Option ρ)) = (l₂ : Multiset (Option ρ)) := by
  have hnot : ¬ (max_workers ≤ 0) := by omega
  refine ⟨List.replicate ags.length (execute_task (some ags) task extra),
    List.replicate ags.length (execute_task (some ags) task extra),
    ?_, ?_, rfl, rfl⟩
  · simp only [async_run, async_runExc, if_neg hnot]
    rw [filterMap_getElem_replicate ags.length
      (execute_task (some ags) task extra) h₁]
    rfl
  · simp only [async_run, async_runExc, if_neg hnot]
    rw [filterMap_getElem_replicate ags.length
      (execute_task (some ags) task extra) h₂]
    rfl

/-- Claim C10: calling `execute_task` with the worker set absent or empty
leaves the local result variable unbound; the resulting error is caught by
the handler and the call returns the FailureMarker None. -/
theorem execute_task_absent_or_empty_worker_set (task : Task) (extra : Args) :
    execute_task (none : Option (List (Agent ρ))) task extra = none ∧
    execute_task (some ([] : List (Agent ρ))) task extra = none :=
  ⟨rfl, rfl⟩

/-! Witnesses instantiating the hypotheses of the claim theorems on
concrete worker sets and tasks. -/

/-- Witness for C2: a worker set whose first worker fails yields the
FailureMarker from `execute_task`. -/
theorem execute_task_worker_failure_yields_marker_witness :
    (∃ a ∈ ([failAgent, pongAgent] : List (Agent String)),
      ∃ e, a.run "ping" [] = Except.error e) ∧
    execute_task (some [failAgent, pongAgent]) "ping" [] = none :=
  ⟨⟨failAgent, by simp, "boom", rfl⟩,
   execute_task_worker_failure_yields_marker [failAgent, pongAgent] "ping" []
     ⟨failAgent, by simp, "boom", rfl⟩⟩

/-- Witness for C3: three tasks in batches of two with one echo worker. -/
theorem batched_run_partitions_tasks_witness :
    1 ≤ 2 ∧ (1 : Int) ≤ 1 ∧
    batched_run 1 (some [echoAgent]) ["a", "b", "c"] ((2 : Nat) : Int) =
      some [some "a", some "b", some "c"] := by
  refine ⟨by omega, by omega, ?_⟩
  have h := (batched_run_partitions_tasks 1 (some [echoAgent])
    ["a", "b", "c"] 2 (by omega) (by omega)).2
  rw [h]
  rfl

/-- Witness for C4: two tasks against one failing worker, collected in
reversed completion order, still give exactly two entries. -/
theorem concurrent_run_one_entry_per_task_witness :
    (1 : Int) ≤ 1 ∧
    ([1, 0] : List Nat).Perm (List.range (["a", "b"] : List Task).length) ∧
    ∃ l, concurrent_run 1 (some [failAgent]) ["a", "b"] [] [1, 0] = some l ∧
      l.length = (["a", "b"] : List Task).length ∧
      l.Perm ((["a", "b"] : List Task).map
        (fun t => execute_task (some [failAgent]) t [])) :=
  ⟨by omega, by decide,
   concurrent_run_one_entry_per_task 1 (some [failAgent]) ["a", "b"] [] [1, 0]
     (by omega) (by decide)⟩

/-- Witness for the amended C7: an empty worker set with the default
concurrency limit gives empty sequences from `run` and `async_run`. -/
theorem run_async_run_empty_worker_set_empty_seq_witness :
    (1 : Int) ≤ 5 ∧
    (run 5 (some ([] : List (Agent String)))
        { text := "ping", timeout := none } = some [] ∧
      async_run 5 (some ([] : List (Agent String))) "ping" [] [] = some []) :=
  ⟨by omega,
   run_async_run_empty_worker_set_empty_seq 5
     { text := "ping", timeout := none } "ping" [] [] (by omega)⟩

/-- Witness for the amended C8: two succeeding workers are both invoked
and only the last result is returned. -/
theorem execute_task_visits_all_keeps_last_witness :
    ([pongAgent, echoAgent] : List (Agent String)) ≠ [] ∧
    (∀ a ∈ ([pongAgent, echoAgent] : List (Agent String)),
      ∃ r, a.run "ping" [] = Except.ok r) ∧
    ∃ last, ([pongAgent, echoAgent] : List (Agent String)).getLast? =
        some last ∧
      invoked_agents [pongAgent, echoAgent] "ping" [] =
        ([pongAgent, echoAgent] : List (Agent String)).map
          (fun a => a.agent_name) ∧
      execute_task (some [pongAgent, echoAgent]) "ping" [] =
        (last.run "ping" []).toOption := by
  have hne : ([pongAgent, echoAgent] : List (Agent String)) ≠ [] := by simp
  have hok : ∀ a ∈ ([pongAgent, echoAgent] : List (Agent String)),
      ∃ r, a.run "ping" [] = Except.ok r := by
    intro a ha
    rcases List.mem_cons.mp ha with h | h
    · exact ⟨"pong", by subst h; rfl⟩
    · rcases List.mem_cons.mp h with h2 | h2
      · exact ⟨"ping", by subst h2; rfl⟩
      · simp at h2
  exact ⟨hne, hok,
    execute_task_visits_all_keeps_last [pongAgent, echoAgent] "ping" [] hne hok⟩

/-- Witness for C9: two distinct completion orders over two workers give
result sequences of equal length and equal multiset. -/
theorem async_run_rerun_same_multiset_witness :
    (1 : Int) ≤ 2 ∧
    ([1, 0] : List Nat).Perm
      (List.range ([echoAgent, pongAgent] : List (Agent String)).length) ∧
    ([0, 1] : List Nat).Perm
      (List.range ([echoAgent, pongAgent] : List (Agent String)).length) ∧
    ∃ l₁ l₂, async_run 2 (some [echoAgent, pongAgent]) "ping" [] [1, 0] =
        some l₁ ∧
      async_run 2 (some [echoAgent, pongAgent]) "ping" [] [0, 1] = some l₂ ∧
      l₁.length = l₂.length ∧
      (l₁ : Multiset (Option String)) = (l₂ : Multiset (Option String)) :=
  ⟨by omega, by decide, by decide,
   async_run_rerun_same_multiset 2 [echoAgent, pongAgent] "ping" [] [1, 0]
     [0, 1] (by omega) (by decide) (by decide)⟩

end Erysa
